import Mathlib

/-!
Shallow embedding of the byteimg container library (byteimg-js).

Buffers are lists of naturals (one per byte).  The embedding follows the
11-byte-prefix variant (the compiled `lib/index.js` and its matching
TypeScript source): `readPrefix`/`writePrefix` over the fixed big-endian
layout, the marker scanner `indexOfBytes`, the constructors `fromOriginal`,
`fromByteimg`, `fromBody`, and the derivations `toBuffer`/`toImage`.

Thrown strings are modelled as values of `ByteimgError`; a JavaScript
`RangeError` escaping `Buffer.fill` or `TypedArray.set` is `OutOfRange`,
and a `RangeError` thrown by an out-of-bounds `DataView` read is
`TruncatedInput`.  The external JPEG codec (sharp) is a collaborator: its
output buffer is a parameter of `fromOriginal`, and its floating-point
ratio arithmetic is modelled over the exact rationals.
-/

def FORMAT_VERSION : Nat := 2

/-- Length of the fixed binary prefix: version 1, original width 2,
original height 2, small width 1, small height 1, header byte count 2,
body byte count 2. -/
def prefixLength : Nat := 1 + 2 + 2 + 1 + 1 + 2 + 2

structure Prefix where
  formatVersion : Nat
  originalWidth : Nat
  originalHeight : Nat
  smallWidth : Nat
  smallHeight : Nat
  headerByteCount : Nat
  bodyByteCount : Nat
deriving DecidableEq, Repr

inductive ByteimgError where
  | FormatVersionUnsupported (version : Nat)
  | TruncatedInput
  | LengthMismatch (expected actual : Nat)
  | BodyOnlyInput
  | HeaderLengthMismatch
  | MetadataUnavailable
  | OutOfRange
deriving DecidableEq, Repr

instance exceptDecEq {ε α : Type} [DecidableEq ε] [DecidableEq α] :
    DecidableEq (Except ε α) := fun x y =>
  match x, y with
  | .error a, .error b =>
    if h : a = b then .isTrue (by rw [h]) else .isFalse (by simp [h])
  | .ok a, .ok b =>
    if h : a = b then .isTrue (by rw [h]) else .isFalse (by simp [h])
  | .error _, .ok _ => .isFalse (by simp)
  | .ok _, .error _ => .isFalse (by simp)

/-- `DataView.getUint8`: one byte at offset `i`. -/
def getUint8 (buf : List Nat) (i : Nat) : Nat := buf.getD i 0

/-- `DataView.getUint16` big-endian at offset `i`. -/
def getUint16 (buf : List Nat) (i : Nat) : Nat :=
  256 * buf.getD i 0 + buf.getD (i + 1) 0

/-- The two bytes `DataView.setUint16` stores big-endian: the value is
taken modulo 2^16. -/
def be16 (v : Nat) : List Nat := [v % 65536 / 256, v % 256]

/-- `Buffer.prototype.writePrefix`: the 11 prefix bytes, big-endian at the
fixed offsets; each store truncates to the field's width. -/
def writePrefix (p : Prefix) : List Nat :=
  p.formatVersion % 256 ::
    (be16 p.originalWidth ++ be16 p.originalHeight ++
      p.smallWidth % 256 :: p.smallHeight % 256 ::
        (be16 p.headerByteCount ++ be16 p.bodyByteCount))

/-- `Buffer.prototype.readPrefix`: reads the version byte first (an empty
buffer makes that read throw), rejects any version other than
`FORMAT_VERSION`, and only then reads the remaining fields, whose
out-of-bounds reads throw when the buffer is shorter than the prefix. -/
def readPrefix (buf : List Nat) : Except ByteimgError Prefix :=
  if buf.length = 0 then .error .TruncatedInput
  else
    let v := getUint8 buf 0
    if v ≠ FORMAT_VERSION then .error (.FormatVersionUnsupported v)
    else if buf.length < prefixLength then .error .TruncatedInput
    else
      .ok ⟨v, getUint16 buf 1, getUint16 buf 3, getUint8 buf 5, getUint8 buf 6,
        getUint16 buf 7, getUint16 buf 9⟩

/-- `Buffer.prototype.indexOfBytes`: offset of the first adjacent pair
`byte1, byte2`, scanning left to right; the loop stops before the last
byte, so a match needs both bytes in range. -/
def indexOfBytes : List Nat → Nat → Nat → Option Nat
  | a :: b :: rest, byte1, byte2 =>
    if a = byte1 ∧ b = byte2 then some 0
    else (indexOfBytes (b :: rest) byte1 byte2).map (fun i => i + 1)
  | _, _, _ => none

structure Byteimg where
  header : List Nat
  body : List Nat
  originalWidth : Nat
  originalHeight : Nat
  smallWidth : Nat
  smallHeight : Nat
deriving DecidableEq, Repr

/-- `Byteimg.toBuffer` / `toJoined`: body first, header appended after it. -/
def Byteimg.toBuffer (b : Byteimg) : List Nat := b.body ++ b.header

/-- `TypedArray.set`: overwrite `src.length` bytes of `dest` at `off`
(only used where `off + src.length ≤ dest.length`). -/
def setRange (dest : List Nat) (off : Nat) (src : List Nat) : List Nat :=
  dest.take off ++ src ++ dest.drop (off + src.length)

/-- The 4 dimension bytes `toImage` patches in: big-endian small height,
then big-endian small width. -/
def sizeBytes (smallHeight smallWidth : Nat) : List Nat :=
  be16 smallHeight ++ be16 smallWidth

/-- `Byteimg.toImage`: header, then body minus its leading prefix bytes;
then the 4 bytes at (start-of-frame offset + 5) are overwritten with the
small dimensions.  A body shorter than the prefix makes the allocation or
the header copy throw; a missing marker makes the offset `undefined + 5 =
NaN`, which the set coerces to offset 0; a set past the end throws. -/
def Byteimg.toImage (b : Byteimg) : Option (List Nat) :=
  if b.body.length < prefixLength then none
  else
    let jpeg := b.header ++ b.body.drop prefixLength
    let sizeBegin :=
      match indexOfBytes jpeg 255 192 with
      | some i => i + 5
      | none => 0
    if sizeBegin + 4 ≤ jpeg.length then
      some (setRange jpeg sizeBegin (sizeBytes b.smallHeight b.smallWidth))
    else none

/-- `fromByteimg` (the joined-buffer parser): parse the prefix from the
front, reject an input whose length says it holds only a body, reject a
total length different from prefix + body + header, then split the
trailing `headerByteCount` bytes off as the header. -/
def fromByteimg (inputBuffer : List Nat) : Except ByteimgError Byteimg :=
  match readPrefix inputBuffer with
  | .error e => .error e
  | .ok p =>
    let expectedByteCount := prefixLength + p.bodyByteCount + p.headerByteCount
    if inputBuffer.length = prefixLength + p.bodyByteCount then
      .error .BodyOnlyInput
    else if inputBuffer.length ≠ expectedByteCount then
      .error (.LengthMismatch expectedByteCount inputBuffer.length)
    else
      .ok ⟨inputBuffer.drop (inputBuffer.length - p.headerByteCount),
        inputBuffer.take (inputBuffer.length - p.headerByteCount),
        p.originalWidth, p.originalHeight, p.smallWidth, p.smallHeight⟩

/-- `fromBody`: parse the prefix embedded in the body, require the supplied
header's length to equal the stored header byte count, and keep both
buffers as given. -/
def fromBody (bodyBuf headerBuf : List Nat) : Except ByteimgError Byteimg :=
  match readPrefix bodyBuf with
  | .error e => .error e
  | .ok p =>
    if headerBuf.length ≠ p.headerByteCount then .error .HeaderLengthMismatch
    else .ok ⟨headerBuf, bodyBuf, p.originalWidth, p.originalHeight,
      p.smallWidth, p.smallHeight⟩

/-- `Math.round` on a nonnegative value: nearest integer, halves up. -/
def roundHalfUp (q : ℚ) : ℤ := ⌊q + 1 / 2⌋

/-- The reduced dimensions `fromOriginal` computes: the ratio maps the
larger original dimension to 24, and both products are rounded. -/
def smallDims (w h : Nat) : Nat × Nat :=
  let ratio : ℚ := if w > h then 24 / w else 24 / h
  ((roundHalfUp (w * ratio)).toNat, (roundHalfUp (h * ratio)).toNat)

/-- `Buffer.prototype.fill 0 s e` (used where `s ≤ e ≤ length`). -/
def fillZero (buf : List Nat) (s e : Nat) : List Nat :=
  buf.take s ++ List.replicate (e - s) 0 ++ buf.drop e

/-- The header/body split at the start-of-scan marker.  When the marker is
absent, `subarray(0, undefined)` and `subarray(undefined)` both yield the
whole buffer. -/
def splitAtMarker (buf : List Nat) : List Nat × List Nat :=
  match indexOfBytes buf 255 218 with
  | some j => (buf.take j, buf.drop j)
  | none => (buf, buf)

/-- `fromOriginal`, with the codec's metadata (`originalWidth`,
`originalHeight`) and its encoded output `jpegBuffer` as parameters:
reject missing metadata, zero the 4 dimension bytes past the
start-of-frame marker (absent marker: `undefined + 5 = NaN`, and
`fill(0, NaN, NaN)` is a no-op; a marker within 9 bytes of the end makes
the fill throw), split at the start-of-scan marker, and prepend the
serialized prefix to the scan bytes to form the body. -/
def fromOriginal (originalWidth originalHeight : Nat) (jpegBuffer : List Nat) :
    Except ByteimgError Byteimg :=
  if originalWidth = 0 ∨ originalHeight = 0 then .error .MetadataUnavailable
  else
    let dims := smallDims originalWidth originalHeight
    let filled : Except ByteimgError (List Nat) :=
      match indexOfBytes jpegBuffer 255 192 with
      | some i =>
        if jpegBuffer.length < i + 9 then .error .OutOfRange
        else .ok (fillZero jpegBuffer (i + 5) (i + 9))
      | none => .ok jpegBuffer
    match filled with
    | .error e => .error e
    | .ok buf =>
      let parts := splitAtMarker buf
      .ok ⟨parts.1,
        writePrefix ⟨FORMAT_VERSION, originalWidth, originalHeight, dims.1, dims.2,
          parts.1.length, parts.2.length⟩ ++ parts.2,
        originalWidth, originalHeight, dims.1, dims.2⟩

/-- The pair `byte1, byte2` stands at offset `i` of `buf`, both bytes in
range (the shape `indexOfBytes` searches for). -/
def hasPairAt (buf : List Nat) (i byte1 byte2 : Nat) : Prop :=
  i + 1 < buf.length ∧ buf.getD i 0 = byte1 ∧ buf.getD (i + 1) 0 = byte2

instance (buf : List Nat) (i byte1 byte2 : Nat) :
    Decidable (hasPairAt buf i byte1 byte2) := by
  unfold hasPairAt; infer_instance

theorem smallDims_one_one : smallDims 1 1 = (24, 24) := by
  norm_num [smallDims, roundHalfUp]
  decide

theorem hasPairAt_cons_succ (a : Nat) (l : List Nat) (i byte1 byte2 : Nat) :
    hasPairAt (a :: l) (i + 1) byte1 byte2 ↔ hasPairAt l i byte1 byte2 := by
  simp [hasPairAt, Nat.succ_lt_succ_iff]

theorem hasPairAt_cons_zero (a : Nat) (l : List Nat) (byte1 byte2 : Nat) :
    hasPairAt (a :: l) 0 byte1 byte2 ↔
      (0 < l.length ∧ a = byte1 ∧ l.getD 0 0 = byte2) := by
  simp [hasPairAt, Nat.succ_lt_succ_iff]

theorem indexOfBytes_eq_none_iff (buf : List Nat) (byte1 byte2 : Nat) :
    indexOfBytes buf byte1 byte2 = none ↔ ∀ i, ¬ hasPairAt buf i byte1 byte2 := by
  induction buf with
  | nil => simp [indexOfBytes, hasPairAt]
  | cons a t ih =>
    cases t with
    | nil => simp [indexOfBytes, hasPairAt]
    | cons b r =>
      by_cases hab : a = byte1 ∧ b = byte2
      · simp only [indexOfBytes, if_pos hab]
        constructor
        · intro h; cases h
        · intro h
          exact absurd ((hasPairAt_cons_zero a (b :: r) byte1 byte2).2
            ⟨by simp, hab.1, by simpa using hab.2⟩) (h 0)
      · simp only [indexOfBytes, if_neg hab, Option.map_eq_none']
        rw [ih]
        constructor
        · intro h i
          match i with
          | 0 =>
            rw [hasPairAt_cons_zero]
            rintro ⟨-, h1, h2⟩
            exact hab ⟨h1, by simpa using h2⟩
          | Nat.succ n =>
            rw [hasPairAt_cons_succ]
            exact h n
        · intro h i
          have := h (i + 1)
          rwa [hasPairAt_cons_succ] at this

theorem indexOfBytes_eq_some (buf : List Nat) (byte1 byte2 i : Nat)
    (h : indexOfBytes buf byte1 byte2 = some i) :
    hasPairAt buf i byte1 byte2 ∧ ∀ j, j < i → ¬ hasPairAt buf j byte1 byte2 := by
  induction buf generalizing i with
  | nil => simp [indexOfBytes] at h
  | cons a t ih =>
    cases t with
    | nil => simp [indexOfBytes] at h
    | cons b r =>
      by_cases hab : a = byte1 ∧ b = byte2
      · simp only [indexOfBytes, if_pos hab, Option.some.injEq] at h
        subst h
        refine ⟨(hasPairAt_cons_zero a (b :: r) byte1 byte2).2
          ⟨by simp, hab.1, by simpa using hab.2⟩, ?_⟩
        intro j hj
        exact absurd hj (Nat.not_lt_zero j)
      · simp only [indexOfBytes, if_neg hab, Option.map_eq_some'] at h
        obtain ⟨k, hk, hki⟩ := h
        obtain ⟨hpair, hmin⟩ := ih k hk
        subst hki
        refine ⟨(hasPairAt_cons_succ a (b :: r) k byte1 byte2).2 hpair, ?_⟩
        intro j hj
        match j with
        | 0 =>
          rw [hasPairAt_cons_zero]
          rintro ⟨-, h1, h2⟩
          exact hab ⟨h1, by simpa using h2⟩
        | Nat.succ n =>
          rw [hasPairAt_cons_succ]
          exact hmin n (Nat.lt_of_succ_lt_succ hj)

/-- C6: the marker scan `indexOfBytes buf 0xFF v` returns "not found"
exactly when no adjacent pair `0xFF, v` occurs in the buffer, and
otherwise returns the offset of the 0xFF byte of the lowest-offset
occurrence. -/
theorem claim6_markerScan (buf : List Nat) (byte2 : Nat) :
    (indexOfBytes buf 255 byte2 = none ↔ ∀ i, ¬ hasPairAt buf i 255 byte2) ∧
    (∀ i, indexOfBytes buf 255 byte2 = some i →
      hasPairAt buf i 255 byte2 ∧ ∀ j, j < i → ¬ hasPairAt buf j 255 byte2) :=
  ⟨indexOfBytes_eq_none_iff buf 255 byte2,
    fun i h => indexOfBytes_eq_some buf 255 byte2 i h⟩

/-- C8: on a buffer at least as long as the prefix, `readPrefix` fails
with `FormatVersionUnsupported` exactly when the first byte differs from
the supported version 2; with first byte 2 it returns the fields read
big-endian at the fixed offsets. -/
theorem claim8_versionCheck (buf : List Nat) (hlen : prefixLength ≤ buf.length) :
    (getUint8 buf 0 ≠ 2 →
      readPrefix buf = .error (.FormatVersionUnsupported (getUint8 buf 0))) ∧
    (getUint8 buf 0 = 2 →
      readPrefix buf = .ok ⟨2, getUint16 buf 1, getUint16 buf 3,
        getUint8 buf 5, getUint8 buf 6, getUint16 buf 7, getUint16 buf 9⟩) := by
  have hne : buf.length ≠ 0 := by
    intro h0
    rw [h0] at hlen
    exact absurd hlen (by decide)
  have hnl : ¬ buf.length < prefixLength := Nat.not_lt.2 hlen
  constructor
  · intro hv
    simp [readPrefix, FORMAT_VERSION, hne, hv]
  · intro hv
    simp [readPrefix, FORMAT_VERSION, hne, hnl, hv]

/-- C8 witness: a concrete 11-byte buffer with version byte 2 parses into
the big-endian fields. -/
theorem claim8_witness :
    readPrefix [2, 1, 0, 0, 3, 7, 9, 0, 5, 1, 4] = .ok ⟨2, 256, 3, 7, 9, 5, 260⟩ :=
  (claim8_versionCheck [2, 1, 0, 0, 3, 7, 9, 0, 5, 1, 4] (by decide)).2 (by decide)

/-- C9 counterexample: a 1-byte buffer (shorter than the prefix) whose
first byte is not the supported version fails with
`FormatVersionUnsupported`, not with `TruncatedInput`. -/
theorem claim9_counterexample :
    ([7] : List Nat).length < prefixLength ∧
    readPrefix [7] = .error (.FormatVersionUnsupported 7) ∧
    readPrefix [7] ≠ .error .TruncatedInput := by
  decide

/-- C9 amended: on a buffer shorter than the prefix, `readPrefix` never
returns a prefix: it fails with `TruncatedInput` when the buffer is empty
or its first byte is the supported version 2, and with
`FormatVersionUnsupported` otherwise (the version check runs before the
remaining reads go out of bounds). -/
theorem claim9_shortInput (buf : List Nat) (hshort : buf.length < prefixLength) :
    ((buf = [] ∨ getUint8 buf 0 = 2) → readPrefix buf = .error .TruncatedInput) ∧
    (buf ≠ [] → getUint8 buf 0 ≠ 2 →
      readPrefix buf = .error (.FormatVersionUnsupported (getUint8 buf 0))) := by
  constructor
  · rintro (h0 | hv)
    · rw [h0]; decide
    · by_cases hne : buf.length = 0
      · simp [readPrefix, hne]
      · simp [readPrefix, FORMAT_VERSION, hne, hv, hshort]
  · intro h0 hv
    have hne : buf.length ≠ 0 := by
      intro hh
      exact h0 (List.length_eq_zero.1 hh)
    simp [readPrefix, FORMAT_VERSION, hne, hv]

/-- C9 witness: a 1-byte buffer starting with the supported version fails
with `TruncatedInput`. -/
theorem claim9_witness : readPrefix [2] = .error .TruncatedInput :=
  (claim9_shortInput [2] (by decide)).1 (Or.inr (by decide))

/-- C4: once the body's prefix parses, `fromBody` fails with
`HeaderLengthMismatch` exactly when the supplied header's length differs
from the stored header byte count. -/
theorem claim4_headerLengthCheck (bodyBuf headerBuf : List Nat) (p : Prefix)
    (hp : readPrefix bodyBuf = .ok p) :
    fromBody bodyBuf headerBuf = .error .HeaderLengthMismatch ↔
      headerBuf.length ≠ p.headerByteCount := by
  rw [fromBody, hp]
  by_cases h : headerBuf.length = p.headerByteCount <;> simp [h]

/-- C4 witness: a body storing header byte count 2 paired with an empty
header fails with `HeaderLengthMismatch`. -/
theorem claim4_witness :
    fromBody [2, 0, 1, 0, 1, 1, 1, 0, 2, 0, 0] [] = .error .HeaderLengthMismatch :=
  (claim4_headerLengthCheck [2, 0, 1, 0, 1, 1, 1, 0, 2, 0, 0] []
    ⟨2, 1, 1, 1, 1, 2, 0⟩ (by decide)).2 (by decide)

/-- C10: `fromBody` checks nothing beyond the format version and the
header length: whenever the body's prefix parses and the header length
matches, it succeeds with exactly the supplied header and body buffers
(the body's own length against `prefixLength + bodyByteCount` is never
validated). -/
theorem claim10_fromBodySucceeds (bodyBuf headerBuf : List Nat) (p : Prefix)
    (hp : readPrefix bodyBuf = .ok p)
    (hlen : headerBuf.length = p.headerByteCount) :
    fromBody bodyBuf headerBuf = .ok ⟨headerBuf, bodyBuf, p.originalWidth,
      p.originalHeight, p.smallWidth, p.smallHeight⟩ := by
  rw [fromBody, hp]
  simp [hlen]

/-- C10 witness: a body whose stored body byte count (5) disagrees with
its own length (11 bytes, not prefixLength + 5) is still accepted. -/
theorem claim10_witness :
    ([2, 0, 1, 0, 1, 5, 6, 0, 0, 0, 5] : List Nat).length ≠ prefixLength + 5 ∧
    fromBody [2, 0, 1, 0, 1, 5, 6, 0, 0, 0, 5] [] =
      .ok ⟨[], [2, 0, 1, 0, 1, 5, 6, 0, 0, 0, 5], 1, 1, 5, 6⟩ :=
  ⟨by decide, claim10_fromBodySucceeds [2, 0, 1, 0, 1, 5, 6, 0, 0, 0, 5] []
    ⟨2, 1, 1, 5, 6, 0, 5⟩ (by decide) (by decide)⟩

/-- C3 counterexample: an input whose length (11) differs from
`prefixLength + headerByteCount + bodyByteCount` (12) does not fail with
`LengthMismatch`: the body-only check fires first. -/
theorem claim3_counterexample :
    readPrefix [2, 0, 1, 0, 1, 1, 1, 0, 1, 0, 0] = .ok ⟨2, 1, 1, 1, 1, 1, 0⟩ ∧
    ([2, 0, 1, 0, 1, 1, 1, 0, 1, 0, 0] : List Nat).length ≠ prefixLength + 0 + 1 ∧
    fromByteimg [2, 0, 1, 0, 1, 1, 1, 0, 1, 0, 0] = .error .BodyOnlyInput := by
  decide

/-- C3 amended: once the prefix parses, an input of length exactly
`prefixLength + bodyByteCount` fails with the body-only error; for any
other length, `fromByteimg` fails with `LengthMismatch` (reporting the
expected and actual byte counts) exactly when the total length differs
from `prefixLength + bodyByteCount + headerByteCount`. -/
theorem claim3_lengthCheck (buf : List Nat) (p : Prefix)
    (hp : readPrefix buf = .ok p) :
    (buf.length = prefixLength + p.bodyByteCount →
      fromByteimg buf = .error .BodyOnlyInput) ∧
    (buf.length ≠ prefixLength + p.bodyByteCount →
      (fromByteimg buf =
          .error (.LengthMismatch (prefixLength + p.bodyByteCount + p.headerByteCount)
            buf.length) ↔
        buf.length ≠ prefixLength + p.bodyByteCount + p.headerByteCount)) := by
  constructor
  · intro h
    rw [fromByteimg, hp]
    simp [h]
  · intro h
    rw [fromByteimg, hp]
    by_cases h2 : buf.length = prefixLength + p.bodyByteCount + p.headerByteCount
    · simp [h, h2]
      split <;> simp
    · simp [h, h2]

/-- C3 witness: a parsed input of the wrong total length (11 instead of
14) fails with `LengthMismatch 14 11`. -/
theorem claim3_witness :
    fromByteimg [2, 0, 1, 0, 1, 1, 1, 0, 1, 0, 2] = .error (.LengthMismatch 14 11) :=
  ((claim3_lengthCheck [2, 0, 1, 0, 1, 1, 1, 0, 1, 0, 2]
    ⟨2, 1, 1, 1, 1, 1, 2⟩ (by decide)).2 (by decide)).mpr (by decide)

theorem be16_recompose (v : Nat) : 256 * (v % 65536 / 256) + v % 256 = v % 65536 := by
  have h : v % 65536 % 256 = v % 256 := Nat.mod_mod_of_dvd v (by norm_num)
  calc 256 * (v % 65536 / 256) + v % 256
      = 256 * (v % 65536 / 256) + v % 65536 % 256 := by rw [h]
    _ = v % 65536 := Nat.div_add_mod (v % 65536) 256

theorem writePrefix_length (p : Prefix) : (writePrefix p).length = prefixLength := by
  simp [writePrefix, be16, prefixLength]

theorem readPrefix_cons11 (a1 a2 a3 a4 a5 a6 a7 a8 a9 a10 : Nat) (t : List Nat) :
    readPrefix (2 :: a1 :: a2 :: a3 :: a4 :: a5 :: a6 :: a7 :: a8 :: a9 :: a10 :: t) =
      .ok ⟨2, 256 * a1 + a2, 256 * a3 + a4, a5, a6, 256 * a7 + a8, 256 * a9 + a10⟩ := by
  unfold readPrefix
  split_ifs with h1 h2
  · simp at h1
  · simp only [List.length_cons, prefixLength] at h2
    omega
  · rfl

theorem readPrefix_writePrefix (ow oh sw sh hc bc : Nat) (t : List Nat) :
    readPrefix (writePrefix ⟨2, ow, oh, sw, sh, hc, bc⟩ ++ t) =
      .ok ⟨2, ow % 65536, oh % 65536, sw % 256, sh % 256, hc % 65536, bc % 65536⟩ := by
  have h := readPrefix_cons11 (ow % 65536 / 256) (ow % 256) (oh % 65536 / 256) (oh % 256)
    (sw % 256) (sh % 256) (hc % 65536 / 256) (hc % 256) (bc % 65536 / 256) (bc % 256) t
  rw [be16_recompose ow, be16_recompose oh, be16_recompose hc, be16_recompose bc] at h
  exact h

theorem roundHalfUp_24 : roundHalfUp 24 = 24 := by norm_num [roundHalfUp]

theorem roundHalfUp_le_24 (q : ℚ) (hq : q ≤ 24) : roundHalfUp q ≤ 24 := by
  have h1 : ⌊q + 1 / 2⌋ ≤ ⌊(24 : ℚ) + 1 / 2⌋ := Int.floor_le_floor (by linarith)
  have h2 : ⌊(24 : ℚ) + 1 / 2⌋ = 24 := by norm_num
  rw [roundHalfUp]
  omega

theorem smallDims_spec (w h : Nat) (hw : 0 < w) (hh : 0 < h) :
    (smallDims w h).1 = (roundHalfUp ((24 * w : ℚ) / (max w h : ℚ))).toNat ∧
    (smallDims w h).2 = (roundHalfUp ((24 * h : ℚ) / (max w h : ℚ))).toNat ∧
    max (smallDims w h).1 (smallDims w h).2 = 24 ∧
    (smallDims w h).1 ≤ 24 ∧ (smallDims w h).2 ≤ 24 := by
  have hwq : (w : ℚ) ≠ 0 := Nat.cast_ne_zero.2 hw.ne'
  have hhq : (h : ℚ) ≠ 0 := Nat.cast_ne_zero.2 hh.ne'
  by_cases hgt : w > h
  · have hmax : ((w : ℚ) ⊔ (h : ℚ)) = (w : ℚ) := max_eq_left (by exact_mod_cast hgt.le)
    have hr1 : (w : ℚ) * (24 / w) = 24 := by field_simp
    have hr1x : (24 * w : ℚ) / (w : ℚ) = 24 := by field_simp
    have hr2 : (h : ℚ) * (24 / w) = 24 * h / w := by ring
    have hle : (24 * h : ℚ) / w ≤ 24 := by
      rw [div_le_iff₀ (by positivity)]
      have : (h : ℚ) ≤ w := by exact_mod_cast hgt.le
      nlinarith
    have e1 : (smallDims w h).1 = (roundHalfUp 24).toNat := by
      simp only [smallDims, if_pos hgt, hr1]
    have e2 : (smallDims w h).2 = (roundHalfUp ((24 * h : ℚ) / w)).toNat := by
      simp only [smallDims, if_pos hgt, hr2]
    have v1 : (smallDims w h).1 = 24 := by rw [e1, roundHalfUp_24]; rfl
    have v2 : (smallDims w h).2 ≤ 24 := by
      rw [e2]
      have := roundHalfUp_le_24 _ hle
      omega
    refine ⟨?_, ?_, ?_, ?_, ?_⟩
    · rw [hmax, hr1x, e1]
    · rw [hmax, e2]
    · rw [v1, Nat.max_eq_left v2]
    · rw [v1]
    · exact v2
  · have hle' : w ≤ h := Nat.le_of_not_lt hgt
    have hmax : ((w : ℚ) ⊔ (h : ℚ)) = (h : ℚ) := max_eq_right (by exact_mod_cast hle')
    have hr1 : (h : ℚ) * (24 / h) = 24 := by field_simp
    have hr1x : (24 * h : ℚ) / (h : ℚ) = 24 := by field_simp
    have hr2 : (w : ℚ) * (24 / h) = 24 * w / h := by ring
    have hle : (24 * w : ℚ) / h ≤ 24 := by
      rw [div_le_iff₀ (by positivity)]
      have : (w : ℚ) ≤ h := by exact_mod_cast hle'
      nlinarith
    have e1 : (smallDims w h).1 = (roundHalfUp ((24 * w : ℚ) / h)).toNat := by
      simp only [smallDims, if_neg hgt, hr2]
    have e2 : (smallDims w h).2 = (roundHalfUp 24).toNat := by
      simp only [smallDims, if_neg hgt, hr1]
    have v2 : (smallDims w h).2 = 24 := by rw [e2, roundHalfUp_24]; rfl
    have v1 : (smallDims w h).1 ≤ 24 := by
      rw [e1]
      have := roundHalfUp_le_24 _ hle
      omega
    refine ⟨?_, ?_, ?_, ?_, ?_⟩
    · rw [hmax, e1]
    · rw [hmax, e2, hr1x]
    · rw [v2, Nat.max_eq_right v1]
    · exact v1
    · rw [v2]

theorem roundtrip_core (hd bd : List Nat) (w h sw sh : Nat)
    (hhdr : 0 < hd.length) (hhdr2 : hd.length < 65536) (hbd : bd.length < 65536)
    (hw : w < 65536) (hh : h < 65536) (hsw : sw < 256) (hsh : sh < 256) :
    fromByteimg (Byteimg.toBuffer
      ⟨hd, writePrefix ⟨2, w, h, sw, sh, hd.length, bd.length⟩ ++ bd, w, h, sw, sh⟩) =
      .ok ⟨hd, writePrefix ⟨2, w, h, sw, sh, hd.length, bd.length⟩ ++ bd, w, h, sw, sh⟩ := by
  have hwl : (writePrefix ⟨2, w, h, sw, sh, hd.length, bd.length⟩).length = prefixLength :=
    writePrefix_length _
  have hbuf : Byteimg.toBuffer
      ⟨hd, writePrefix ⟨2, w, h, sw, sh, hd.length, bd.length⟩ ++ bd, w, h, sw, sh⟩ =
      writePrefix ⟨2, w, h, sw, sh, hd.length, bd.length⟩ ++ (bd ++ hd) := by
    simp [Byteimg.toBuffer]
  rw [hbuf]
  have hlen : (writePrefix ⟨2, w, h, sw, sh, hd.length, bd.length⟩ ++ (bd ++ hd)).length =
      prefixLength + (bd.length + hd.length) := by
    simp [hwl]
  rw [fromByteimg, readPrefix_writePrefix]
  simp only [Nat.mod_eq_of_lt hw, Nat.mod_eq_of_lt hh, Nat.mod_eq_of_lt hsw,
    Nat.mod_eq_of_lt hsh, Nat.mod_eq_of_lt hhdr2, Nat.mod_eq_of_lt hbd]
  rw [if_neg (by rw [hlen]; omega)]
  rw [if_neg (by rw [hlen]; omega)]
  have htk : (writePrefix ⟨2, w, h, sw, sh, hd.length, bd.length⟩ ++ (bd ++ hd)).length -
      hd.length = (writePrefix ⟨2, w, h, sw, sh, hd.length, bd.length⟩ ++ bd).length := by
    simp [hwl]
    omega
  rw [htk, ← List.append_assoc, List.drop_left, List.take_left]

theorem smallDims_example : smallDims 1200 800 = (24, 16) := by
  norm_num [smallDims, roundHalfUp]
  decide

/-- C7: the reduced dimensions are the rounded products with the ratio
24 / max(w, h), the larger dimension maps to exactly 24, both fit in an
unsigned byte, and 1200×800 reduces to 24×16. -/
theorem claim7_reduction (w h : Nat) (hw : 0 < w) (hh : 0 < h) :
    (smallDims w h).1 = (roundHalfUp ((24 * w : ℚ) / (max w h : ℚ))).toNat ∧
    (smallDims w h).2 = (roundHalfUp ((24 * h : ℚ) / (max w h : ℚ))).toNat ∧
    max (smallDims w h).1 (smallDims w h).2 = 24 ∧
    (smallDims w h).1 ≤ 255 ∧ (smallDims w h).2 ≤ 255 ∧
    smallDims 1200 800 = (24, 16) := by
  obtain ⟨e1, e2, emax, l1, l2⟩ := smallDims_spec w h hw hh
  exact ⟨e1, e2, emax, l1.trans (by norm_num), l2.trans (by norm_num), smallDims_example⟩

/-- C7 witness: the spec's example instance. -/
theorem claim7_witness : smallDims 1200 800 = (24, 16) :=
  (claim7_reduction 1200 800 (by norm_num) (by norm_num)).2.2.2.2.2

/-- C1 counterexample: a codec output that starts with the start-of-scan
marker gives a successfully constructed Byteimg with an empty header; its
joined buffer then has exactly `prefixLength + bodyByteCount` bytes, and
`fromByteimg` rejects it as body-only instead of reconstructing it. -/
theorem claim1_counterexample :
    fromOriginal 1 1 [255, 218] =
      .ok ⟨[], [2, 0, 1, 0, 1, 24, 24, 0, 0, 0, 2, 255, 218], 1, 1, 24, 24⟩ ∧
    fromByteimg (Byteimg.toBuffer
      ⟨[], [2, 0, 1, 0, 1, 24, 24, 0, 0, 0, 2, 255, 218], 1, 1, 24, 24⟩) =
      .error .BodyOnlyInput := by
  constructor
  · simp only [fromOriginal, smallDims_one_one]
    decide
  · decide

/-- C1 amended: the round trip `fromByteimg (b.toBuffer) = b` holds for
every Byteimg built by `fromOriginal` whose header is nonempty and whose
stored quantities fit their prefix fields (header length and scan length
below 2^16, original dimensions below 2^16); with an empty header the
joined buffer is rejected as body-only, and overflowing fields are
truncated by the 11-byte prefix. -/
theorem claim1_roundtrip (w h : Nat) (jpeg : List Nat) (b : Byteimg)
    (hok : fromOriginal w h jpeg = .ok b)
    (hhdr : 0 < b.header.length) (hhdr2 : b.header.length < 65536)
    (hbody : b.body.length < prefixLength + 65536)
    (hw : w < 65536) (hh : h < 65536) :
    fromByteimg b.toBuffer = .ok b := by
  have h0 : ¬ (w = 0 ∨ h = 0) := by
    intro h0
    rw [fromOriginal, if_pos h0] at hok
    exact absurd hok (by simp)
  have hw0 : 0 < w := Nat.pos_of_ne_zero fun hc => h0 (Or.inl hc)
  have hh0 : 0 < h := Nat.pos_of_ne_zero fun hc => h0 (Or.inr hc)
  have hsw := (smallDims_spec w h hw0 hh0).2.2.2.1
  have hsh := (smallDims_spec w h hw0 hh0).2.2.2.2
  rw [fromOriginal, if_neg h0] at hok
  have hshape : ∃ hd bd : List Nat,
      b = ⟨hd, writePrefix ⟨2, w, h, (smallDims w h).1, (smallDims w h).2,
        hd.length, bd.length⟩ ++ bd, w, h, (smallDims w h).1, (smallDims w h).2⟩ := by
    rcases hidx : indexOfBytes jpeg 255 192 with _ | i <;>
      rw [hidx] at hok <;> simp only [FORMAT_VERSION] at hok
    · rw [Except.ok.injEq] at hok
      exact ⟨(splitAtMarker jpeg).1, (splitAtMarker jpeg).2, hok.symm⟩
    · by_cases hrange : jpeg.length < i + 9
      · rw [if_pos hrange] at hok
        simp at hok
      · rw [if_neg hrange] at hok
        simp only [Except.ok.injEq] at hok
        exact ⟨(splitAtMarker (fillZero jpeg (i + 5) (i + 9))).1,
          (splitAtMarker (fillZero jpeg (i + 5) (i + 9))).2, hok.symm⟩
  obtain ⟨hd, bd, rfl⟩ := hshape
  simp only at hhdr hhdr2 hbody
  have hbd : bd.length < 65536 := by
    have := writePrefix_length ⟨2, w, h, (smallDims w h).1, (smallDims w h).2,
      hd.length, bd.length⟩
    simp only [List.length_append, this] at hbody
    omega
  exact roundtrip_core hd bd w h (smallDims w h).1 (smallDims w h).2 hhdr hhdr2 hbd hw hh
    (Nat.lt_of_le_of_lt hsw (by norm_num)) (Nat.lt_of_le_of_lt hsh (by norm_num))

/-- C1 witness: a concrete five-byte codec output whose Byteimg survives
the joined-buffer round trip. -/
theorem claim1_witness :
    fromByteimg (Byteimg.toBuffer ⟨[255, 216],
      [2, 0, 1, 0, 1, 24, 24, 0, 2, 0, 3, 255, 218, 0], 1, 1, 24, 24⟩) =
      .ok ⟨[255, 216], [2, 0, 1, 0, 1, 24, 24, 0, 2, 0, 3, 255, 218, 0], 1, 1, 24, 24⟩ :=
  claim1_roundtrip 1 1 [255, 216, 255, 218, 0] _
    (by simp only [fromOriginal, smallDims_one_one]; decide)
    (by decide) (by decide) (by decide) (by decide) (by decide)

/-- C2 counterexample: a Byteimg whose reconstructed buffer contains the
start-of-frame pair `0xFF 0xC0`, but too close to the end for the 4-byte
patch: `toImage` throws (returns nothing) instead of returning the
patched concatenation. -/
theorem claim2_counterexample :
    indexOfBytes (Byteimg.header ⟨[255, 192], List.replicate 11 0, 1, 1, 24, 24⟩ ++
      (Byteimg.body ⟨[255, 192], List.replicate 11 0, 1, 1, 24, 24⟩).drop prefixLength)
      255 192 = some 0 ∧
    Byteimg.toImage ⟨[255, 192], List.replicate 11 0, 1, 1, 24, 24⟩ = none := by
  decide

/-- C2 amended: when the reconstructed buffer `header ++ (body minus its
prefix bytes)` contains `0xFF 0xC0` at offset `i`, the body is at least
prefix-sized, and the patch fits (`i + 9 ≤ length`), `toImage` returns
exactly that buffer with the 4 bytes starting at `i + 5` replaced by the
big-endian 16-bit small height then small width; other bytes unchanged. -/
theorem claim2_toImagePatch (b : Byteimg) (i : Nat)
    (h1 : prefixLength ≤ b.body.length)
    (h2 : indexOfBytes (b.header ++ b.body.drop prefixLength) 255 192 = some i)
    (h3 : i + 9 ≤ (b.header ++ b.body.drop prefixLength).length) :
    b.toImage = some ((b.header ++ b.body.drop prefixLength).take (i + 5) ++
      (be16 b.smallHeight ++ be16 b.smallWidth) ++
      (b.header ++ b.body.drop prefixLength).drop (i + 9)) := by
  rw [Byteimg.toImage, if_neg (Nat.not_lt.2 h1)]
  simp only [h2]
  have hcond : i + 5 + 4 ≤ (b.header ++ b.body.drop prefixLength).length := by omega
  rw [if_pos hcond]
  rw [setRange, show (sizeBytes b.smallHeight b.smallWidth).length = 4 from rfl,
    (by omega : i + 5 + 4 = i + 9), sizeBytes]

/-- C2 witness: a 9-byte reconstructed buffer with the marker at offset 0
gets its bytes 5..8 replaced by big-endian small height 3 then small
width 2. -/
theorem claim2_witness :
    Byteimg.toImage ⟨[255, 192, 0, 0, 0, 0, 0, 0, 0], List.replicate 11 0, 1, 1, 2, 3⟩ =
      some [255, 192, 0, 0, 0, 0, 3, 0, 2] :=
  claim2_toImagePatch ⟨[255, 192, 0, 0, 0, 0, 0, 0, 0], List.replicate 11 0, 1, 1, 2, 3⟩ 0
    (by decide) (by decide) (by decide)

/-- C5: `fromOriginal` never checks marker presence.  On a codec output
containing a start-of-frame pair but no start-of-scan pair, construction
succeeds anyway: the split degenerates (`subarray(undefined)` is the whole
buffer), so the returned Byteimg duplicates the full 10 encoded bytes as
both header and scan data instead of failing with a start-of-scan error. -/
theorem claim5_noMarkerValidation :
    fromOriginal 1 1 [255, 192, 0, 0, 0, 0, 0, 0, 0, 0] =
      .ok ⟨[255, 192, 0, 0, 0, 0, 0, 0, 0, 0],
        [2, 0, 1, 0, 1, 24, 24, 0, 10, 0, 10, 255, 192, 0, 0, 0, 0, 0, 0, 0, 0],
        1, 1, 24, 24⟩ := by
  simp only [fromOriginal, smallDims_one_one]
  decide
